import Mathlib

/-!
Verification of the GSX emulator and assembler (a TypeScript web project)
against its natural-language specification.

The TypeScript sources are shallowly embedded below:

* JavaScript numbers (IEEE-754 double values) are modelled by the type
  JsNum: NaN, signed infinities, and finite values carried as exact
  rationals.  Every arithmetic operation rounds its exact rational result
  to double precision, mirroring IEEE-754 round-to-nearest, ties-to-even.
  The two IEEE zeros are identified (no claim depends on the sign of zero).
* TypeCasting.ts: toUint8, toUint32, toFloat32 (Math.fround),
  integerSaturate.
* getFloatBytes.ts: the big-endian single-precision byte view.
* Registers.ts: the register file with width-enforcing setters.
* InstructionSet.ts: the opcode table builder, the assembler
  (translateToBytecode, tryToGetBytecodeForConstantAssignment,
  normalizeMnemonic) and the per-opcode handler semantics.
* Gsx.ts: the machine state (RAM, argument stack, jump stack) and the
  interpreter loop runProgram, modelled with explicit fuel.
-/

/-- Model of a JavaScript number: NaN, an infinity, or a finite double
carried as an exact rational.  The sign of zero is not tracked. -/
inductive JsNum where
  | nan : JsNum
  | inf (neg : Bool) : JsNum
  | fin (q : ℚ) : JsNum
deriving DecidableEq, Repr

/-- Two raised to an integer power, as a rational. -/
def pow2 (e : ℤ) : ℚ :=
  if 0 ≤ e then ((2 ^ e.toNat : ℕ) : ℚ) else 1 / ((2 ^ (-e).toNat : ℕ) : ℚ)

/-- Truncation toward zero of a rational, as in Math.trunc. -/
def truncQ (q : ℚ) : ℤ :=
  if 0 ≤ q then ⌊q⌋ else ⌈q⌉

/-- Round a rational to the nearest integer, ties to even. -/
def rndHalfEven (q : ℚ) : ℤ :=
  let n := ⌊q⌋
  let frac := q - (n : ℚ)
  if frac < 1 / 2 then n
  else if 1 / 2 < frac then n + 1
  else if n % 2 = 0 then n else n + 1

/-- Floor of the base-two logarithm of a positive rational. -/
def qFloorLog2 (q : ℚ) : ℤ :=
  let c : ℤ := (Nat.log2 q.num.natAbs : ℤ) - (Nat.log2 q.den : ℤ)
  if pow2 c ≤ q then c else c - 1

/-- An IEEE-754 binary format: significand bits and exponent range. -/
structure FpFmt where
  prec : ℕ
  emax : ℤ
  emin : ℤ

/-- The binary32 format (single precision). -/
def fmt32 : FpFmt := ⟨24, 127, -126⟩

/-- The binary64 format (double precision, JavaScript numbers). -/
def fmt64 : FpFmt := ⟨53, 1023, -1022⟩

/-- Round a positive rational to the nearest representable value of the
format, ties to even; none signals overflow to infinity (the rounded
magnitude reaches two to the power emax + 1, which happens exactly when
the exponent exceeds emax, or the significand carries all the way to
2 ^ prec while the exponent is already emax).  Subnormal values round
on the fixed grid of the minimum exponent. -/
def roundPos (fmt : FpFmt) (q : ℚ) : Option ℚ :=
  let e := max (qFloorLog2 q) fmt.emin
  let g : ℤ := e - ((fmt.prec : ℤ) - 1)
  let n := rndHalfEven (q * pow2 (-g))
  if fmt.emax < e then none
  else if n = 2 ^ fmt.prec ∧ e = fmt.emax then none
  else some ((n : ℚ) * pow2 g)

/-- Round an exact rational to a double value (sign-symmetric), the
result of every JavaScript arithmetic operation on finite operands. -/
def roundF64Val (q : ℚ) : JsNum :=
  if q = 0 then .fin 0
  else if 0 < q then
    match roundPos fmt64 q with
    | some m => .fin m
    | none => .inf false
  else
    match roundPos fmt64 (-q) with
    | some m => .fin (-m)
    | none => .inf true

/-- JavaScript addition. -/
def jsAdd : JsNum → JsNum → JsNum
  | .nan, _ => .nan
  | _, .nan => .nan
  | .inf s, .inf t => if s = t then .inf s else .nan
  | .inf s, .fin _ => .inf s
  | .fin _, .inf s => .inf s
  | .fin a, .fin b => roundF64Val (a + b)

/-- JavaScript subtraction. -/
def jsSub : JsNum → JsNum → JsNum
  | .nan, _ => .nan
  | _, .nan => .nan
  | .inf s, .inf t => if s ≠ t then .inf s else .nan
  | .inf s, .fin _ => .inf s
  | .fin _, .inf s => .inf (!s)
  | .fin a, .fin b => roundF64Val (a - b)

/-- JavaScript multiplication. -/
def jsMul : JsNum → JsNum → JsNum
  | .nan, _ => .nan
  | _, .nan => .nan
  | .inf s, .inf t => .inf (s ≠ t)
  | .inf s, .fin b => if b = 0 then .nan else .inf (s ≠ decide (b < 0))
  | .fin a, .inf t => if a = 0 then .nan else .inf (decide (a < 0) ≠ t)
  | .fin a, .fin b => roundF64Val (a * b)

/-- JavaScript division (division by zero gives an infinity or NaN). -/
def jsDiv : JsNum → JsNum → JsNum
  | .nan, _ => .nan
  | _, .nan => .nan
  | .inf _, .inf _ => .nan
  | .inf s, .fin b => .inf (s ≠ decide (b < 0))
  | .fin _, .inf _ => .fin 0
  | .fin a, .fin b =>
    if b = 0 then (if a = 0 then .nan else .inf (decide (a < 0)))
    else roundF64Val (a / b)

/-- JavaScript strict comparison a < b (false whenever NaN is involved). -/
def jsLt : JsNum → JsNum → Bool
  | .nan, _ => false
  | _, .nan => false
  | .inf s, .inf t => s && !t
  | .inf s, .fin _ => s
  | .fin _, .inf t => !t
  | .fin a, .fin b => decide (a < b)

/-- JavaScript comparison a ≤ b (false whenever NaN is involved). -/
def jsLe : JsNum → JsNum → Bool
  | .nan, _ => false
  | _, .nan => false
  | .inf s, .inf t => s || !t
  | .inf s, .fin _ => s
  | .fin _, .inf t => !t
  | .fin a, .fin b => decide (a ≤ b)

/-- JavaScript strict equality on numbers (NaN equals nothing). -/
def jsStrictEq : JsNum → JsNum → Bool
  | .nan, _ => false
  | _, .nan => false
  | .inf s, .inf t => s = t
  | .fin a, .fin b => decide (a = b)
  | _, _ => false

/-- Constants from DataTypeConstants.ts. -/
def UINT8_MAX : ℕ := 255

/-- Largest unsigned 32-bit value, from DataTypeConstants.ts. -/
def UINT32_MAX : ℕ := 4294967295

/-- Smallest signed byte, from DataTypeConstants.ts. -/
def INT8_MIN : ℤ := -128

/-- Largest signed byte, from DataTypeConstants.ts. -/
def INT8_MAX : ℤ := 127

/-- TypeCasting.ts integerSaturate: clamp below min to min, above max to
max, otherwise truncate toward zero.  All comparisons with NaN are
false and Math.trunc(NaN) is NaN, so NaN passes through unchanged. -/
def integerSaturate (value : JsNum) (min max : ℚ) : JsNum :=
  if jsLt value (.fin min) then .fin min
  else if jsLt (.fin max) value then .fin max
  else
    match value with
    | .nan => .nan
    | .inf s => .inf s
    | .fin q => .fin (truncQ q)

/-- TypeCasting.ts toUint8. -/
def toUint8 (value : JsNum) : JsNum :=
  integerSaturate value 0 (UINT8_MAX : ℚ)

/-- TypeCasting.ts toUint32. -/
def toUint32 (value : JsNum) : JsNum :=
  integerSaturate value 0 (UINT32_MAX : ℚ)

/-- The ECMAScript ToUint32 conversion used by Uint32Array element
writes: NaN and infinities go to 0, finite values truncate toward zero
and wrap modulo two to the thirty-second. -/
def toUint32Wrap (value : JsNum) : ℕ :=
  match value with
  | .nan => 0
  | .inf _ => 0
  | .fin q => ((truncQ q) % (4294967296 : ℤ)).toNat

/-- The ECMAScript ToUint8 conversion used when building a Uint8Array:
NaN and infinities go to 0, finite values truncate and wrap mod 256. -/
def toUint8Wrap (value : JsNum) : ℕ :=
  match value with
  | .nan => 0
  | .inf _ => 0
  | .fin q => ((truncQ q) % (256 : ℤ)).toNat

/-- Reinterpret an unsigned byte as the signed byte sharing its bit
pattern, as DataView.getInt8 does. -/
def int8OfByte (b : ℕ) : ℤ :=
  if b % 256 < 128 then (b % 256 : ℤ) else (b % 256 : ℤ) - 256

/-- Compute the 32-bit pattern of the single-precision rounding of a
JavaScript number, mirroring what DataView.setFloat32 stores: sign bit,
biased exponent and fraction, rounding to nearest with ties to even,
overflow to infinity, subnormals on the fixed grid, and the canonical
quiet-NaN pattern for NaN. -/
def encRoundF32 (x : JsNum) : ℕ :=
  match x with
  | .nan => 0x7FC00000
  | .inf neg => if neg then 0xFF800000 else 0x7F800000
  | .fin q =>
    if q = 0 then 0
    else
      let s : ℕ := if q < 0 then 0x80000000 else 0
      let a : ℚ := |q|
      let e : ℤ := max (qFloorLog2 a) (-126)
      let n : ℕ := (rndHalfEven (a * pow2 (23 - e))).toNat
      let n1 : ℕ := if n = 2 ^ 24 then 2 ^ 23 else n
      let e1 : ℤ := if n = 2 ^ 24 then e + 1 else e
      if 127 < e1 then s + 0x7F800000
      else if n1 < 2 ^ 23 then s + n1
      else s + (e1 + 127).toNat * 2 ^ 23 + (n1 - 2 ^ 23)

/-- Decode a 32-bit pattern as the JavaScript number DataView.getFloat32
returns: exponent field 255 gives an infinity or NaN, exponent field 0
gives a subnormal, anything else a normal value. -/
def decodeF32 (bits : ℕ) : JsNum :=
  let b : ℕ := bits % 2 ^ 32
  let sgn : ℕ := b / 2 ^ 31
  let expF : ℕ := b / 2 ^ 23 % 2 ^ 8
  let frac : ℕ := b % 2 ^ 23
  if expF = 255 then (if frac = 0 then .inf (decide (sgn = 1)) else .nan)
  else
    let mag : ℚ :=
      if expF = 0 then (frac : ℚ) * pow2 (-149)
      else ((2 ^ 23 + frac : ℕ) : ℚ) * pow2 ((expF : ℤ) - 150)
    .fin (if sgn = 1 then -mag else mag)

/-- TypeCasting.ts toFloat32, i.e. Math.fround: the double value of the
single-precision rounding of the input. -/
def toFloat32 (value : JsNum) : JsNum :=
  decodeF32 (encRoundF32 value)

/-- Split a 32-bit pattern into its four bytes, most significant first
(the order DataView uses when no little-endian flag is passed). -/
def bytesOfBits32 (bits : ℕ) : List ℕ :=
  [bits / 2 ^ 24 % 256, bits / 2 ^ 16 % 256, bits / 2 ^ 8 % 256, bits % 256]

/-- Join four big-endian bytes into a 32-bit pattern. -/
def bitsOfBytes32 (b0 b1 b2 b3 : ℕ) : ℕ :=
  b0 % 256 * 2 ^ 24 + b1 % 256 * 2 ^ 16 + b2 % 256 * 2 ^ 8 + b3 % 256

/-- getFloatBytes.ts: store the value through setFloat32 on a scratch
DataView (big-endian) and read the four bytes back with getInt8, so the
returned numbers are signed bytes. -/
def getFloatBytes (value : JsNum) : List JsNum :=
  (bytesOfBits32 (encRoundF32 value)).map (fun b => .fin (int8OfByte b))

/-- Characters matched by the JavaScript regular-expression class for
whitespace. -/
def jsIsSpace (c : Char) : Bool :=
  c.toNat ∈ [9, 10, 11, 12, 13, 32, 0x00a0, 0x1680, 0x2028, 0x2029,
    0x202f, 0x205f, 0x3000, 0xfeff] ∨ (0x2000 ≤ c.toNat ∧ c.toNat ≤ 0x200a)

/-- Drop all whitespace, and drop everything from a hash sign to the
end of the line, as the global replacement of the whitespace-or-comment
pattern in normalizeMnemonic does; the flag records whether the scan is
inside a comment (a line feed both ends the comment and is itself
whitespace). -/
def stripSpaceAndCommentsAux : Bool → List Char → List Char
  | _, [] => []
  | true, c :: rest =>
    if c = '\n' then stripSpaceAndCommentsAux false rest
    else stripSpaceAndCommentsAux true rest
  | false, c :: rest =>
    if c = '#' then stripSpaceAndCommentsAux true rest
    else if jsIsSpace c then stripSpaceAndCommentsAux false rest
    else c :: stripSpaceAndCommentsAux false rest

/-- InstructionSet.ts normalizeMnemonic: remove whitespace and comments,
then lowercase. -/
def normalizeMnemonic (mnemonic : String) : String :=
  String.mk ((stripSpaceAndCommentsAux false mnemonic.toList).map Char.toLower)

/-- Group a reversed digit list in threes with comma separators,
modelling toLocaleString in an English-style locale. -/
def commaGroupRev : List Char → List Char
  | [] => []
  | [a] => [a]
  | [a, b] => [a, b]
  | [a, b, c] => [a, b, c]
  | a :: b :: c :: d :: rest => a :: b :: c :: ',' :: commaGroupRev (d :: rest)

/-- Model of Number.prototype.toLocaleString for a natural number. -/
def toLocaleStringModel (n : ℕ) : String :=
  String.mk ((commaGroupRev (toString n).toList.reverse).reverse)

/-- Numeric value of a list of decimal digit characters. -/
def digitsToNat (ds : List Char) : ℕ :=
  ds.foldl (fun a c => 10 * a + (c.toNat - 48)) 0

/-- Split a character list of the exact shape of the signed-decimal
capture group (optional minus, digits, optionally a dot followed by
digits) into sign, integer digits and fraction digits. -/
def decimalParts (cs : List Char) : Option (Bool × List Char × List Char) :=
  let neg : Bool := match cs with | '-' :: _ => true | _ => false
  let cs1 := if neg then cs.tail else cs
  let ds := cs1.takeWhile Char.isDigit
  let rest := cs1.dropWhile Char.isDigit
  if ds = [] then none
  else
    match rest with
    | [] => some (neg, ds, [])
    | '.' :: fs =>
      if fs ≠ [] ∧ fs.all Char.isDigit then some (neg, ds, fs) else none
    | _ => none

/-- JavaScript parseFloat on a string of the signed-decimal shape: the
exact decimal value rounded to double precision. -/
def jsParseFloat (s : String) : JsNum :=
  match decimalParts s.toList with
  | none => .nan
  | some (neg, ds, fs) =>
    let q : ℚ := (digitsToNat ds : ℚ) + (digitsToNat fs : ℚ) / ((10 : ℚ) ^ fs.length)
    roundF64Val (if neg then -q else q)

/-- JavaScript parseInt with radix 10: an optional sign followed by the
maximal digit prefix (everything from a dot onward is ignored), rounded
to double precision; NaN when no digits are present. -/
def jsParseInt (s : String) : JsNum :=
  let cs := s.toList
  let neg : Bool := match cs with | '-' :: _ => true | _ => false
  let cs1 := if neg then cs.tail else cs
  let ds := cs1.takeWhile Char.isDigit
  if ds = [] then .nan
  else roundF64Val (if neg then -(digitsToNat ds : ℚ) else (digitsToNat ds : ℚ))

/-- Match of the anchored pattern new(t or r or y)=(signed decimal) used
by tryToGetBytecodeForConstantAssignment; yields the register letter
and the constant capture. -/
def matchConstantPattern (s : String) : Option (Char × String) :=
  match s.toList with
  | 'n' :: 'e' :: 'w' :: reg :: '=' :: rest =>
    if (reg = 't' ∨ reg = 'r' ∨ reg = 'y') ∧ (decimalParts rest).isSome
    then some (reg, String.mk rest) else none
  | _ => none

/-- The three general purpose register names, in the enumeration order
of the source. -/
inductive Reg where
  | t : Reg
  | r : Reg
  | y : Reg
deriving DecidableEq, Repr

/-- Mnemonic letter of a general purpose register. -/
def regStr : Reg → String
  | .t => "t"
  | .r => "r"
  | .y => "y"

/-- InstructionSet.ts generalPurposeRegisters. -/
def generalPurposeRegisters : List Reg := [.t, .r, .y]

/-- InstructionSet.ts otherTwo: the remaining two registers, in the
fixed order of the source. -/
def otherTwo : Reg → Reg × Reg
  | .t => (.r, .y)
  | .r => (.t, .y)
  | .y => (.t, .r)

/-- The remaining two registers as a list (for iteration). -/
def otherTwoList (reg : Reg) : List Reg :=
  [(otherTwo reg).1, (otherTwo reg).2]

/-- InstructionSet.ts assign: produce a mnemonic representing
assignment of src to dst. -/
def assign (dst src : String) : String :=
  "new " ++ dst ++ " = " ++ src

/-- Symbolic description of one executable instruction.  Each
constructor corresponds to one closure pushed onto
instructionByBytecode; addI target a b sets target to a + b (the
self-double handler is addI reg reg reg, computing oldValue +
oldValue), and likewise for mulI, subI, divI. -/
inductive InstrSpec where
  | constByte (reg : Reg) : InstrSpec
  | constFloat (reg : Reg) : InstrSpec
  | exitI : InstrSpec
  | runReg (reg : Reg) : InstrSpec
  | pushReg (reg : Reg) : InstrSpec
  | popReg (reg : Reg) : InstrSpec
  | readByte (value addr : Reg) : InstrSpec
  | readFloat (value addr : Reg) : InstrSpec
  | writeByte (addr value : Reg) : InstrSpec
  | writeFloat (addr value : Reg) : InstrSpec
  | addI (target a b : Reg) : InstrSpec
  | mulI (target a b : Reg) : InstrSpec
  | subI (target a b : Reg) : InstrSpec
  | divI (target a b : Reg) : InstrSpec
deriving DecidableEq, Repr

/-- The subtraction definitions: the two three-operand forms per target
followed by the four target-in-operand forms per target. -/
def subtractionDefs : List (List String × InstrSpec) :=
  (generalPurposeRegisters.flatMap fun register =>
    let o1 := (otherTwo register).1
    let o2 := (otherTwo register).2
    [([assign (regStr register) (regStr o1 ++ " - " ++ regStr o2)], .subI register o1 o2),
     ([assign (regStr register) (regStr o2 ++ " - " ++ regStr o1)], .subI register o2 o1)])
  ++ (generalPurposeRegisters.flatMap fun register =>
    let o1 := (otherTwo register).1
    let o2 := (otherTwo register).2
    [([assign (regStr register) (regStr register ++ " - " ++ regStr o1)], .subI register register o1),
     ([assign (regStr register) (regStr register ++ " - " ++ regStr o2)], .subI register register o2),
     ([assign (regStr register) (regStr o1 ++ " - " ++ regStr register)], .subI register o1 register),
     ([assign (regStr register) (regStr o2 ++ " - " ++ regStr register)], .subI register o2 register)])

/-- The division definitions, shaped like the subtraction ones. -/
def divisionDefs : List (List String × InstrSpec) :=
  (generalPurposeRegisters.flatMap fun register =>
    let o1 := (otherTwo register).1
    let o2 := (otherTwo register).2
    [([assign (regStr register) (regStr o1 ++ " / " ++ regStr o2)], .divI register o1 o2),
     ([assign (regStr register) (regStr o2 ++ " / " ++ regStr o1)], .divI register o2 o1)])
  ++ (generalPurposeRegisters.flatMap fun register =>
    let o1 := (otherTwo register).1
    let o2 := (otherTwo register).2
    [([assign (regStr register) (regStr register ++ " / " ++ regStr o1)], .divI register register o1),
     ([assign (regStr register) (regStr register ++ " / " ++ regStr o2)], .divI register register o2),
     ([assign (regStr register) (regStr o1 ++ " / " ++ regStr register)], .divI register o1 register),
     ([assign (regStr register) (regStr o2 ++ " / " ++ regStr register)], .divI register o2 register)])

/-- Every call of define in InstructionSet.ts, in source order: the
mnemonic list passed and the handler pushed.  The loop opened for the
register-times-other block is closed only after the division block in
the source, so the subtraction and division definitions are nested
inside it and repeat once for every iteration of that outer loop. -/
def definitionList : List (List String × InstrSpec) :=
  [(["exit"], .exitI)]
  ++ generalPurposeRegisters.map (fun register =>
       (["run " ++ regStr register], .runReg register))
  ++ generalPurposeRegisters.map (fun register =>
       (["push " ++ regStr register], .pushReg register))
  ++ generalPurposeRegisters.map (fun register =>
       ([assign (regStr register) "pop"], .popReg register))
  ++ (generalPurposeRegisters.flatMap fun addressRegister =>
       generalPurposeRegisters.map fun valueRegister =>
         ([assign (regStr valueRegister) ("ram[" ++ regStr addressRegister ++ "] byte")],
          .readByte valueRegister addressRegister))
  ++ (generalPurposeRegisters.flatMap fun addressRegister =>
       generalPurposeRegisters.map fun valueRegister =>
         ([assign (regStr valueRegister) ("ram[" ++ regStr addressRegister ++ "] float")],
          .readFloat valueRegister addressRegister))
  ++ (generalPurposeRegisters.flatMap fun addressRegister =>
       (otherTwoList addressRegister).map fun valueRegister =>
         ([assign ("ram[" ++ regStr addressRegister ++ "] byte") (regStr valueRegister)],
          .writeByte addressRegister valueRegister))
  ++ (generalPurposeRegisters.flatMap fun addressRegister =>
       (otherTwoList addressRegister).map fun valueRegister =>
         ([assign ("ram[" ++ regStr addressRegister ++ "] float") (regStr valueRegister)],
          .writeFloat addressRegister valueRegister))
  ++ generalPurposeRegisters.map (fun register =>
       let o1 := (otherTwo register).1
       let o2 := (otherTwo register).2
       ([assign (regStr register) (regStr o1 ++ " + " ++ regStr o2),
         assign (regStr register) (regStr o2 ++ " + " ++ regStr o1)],
        .addI register o1 o2))
  ++ generalPurposeRegisters.map (fun register =>
       ([assign (regStr register) (regStr register ++ " + " ++ regStr register),
         assign (regStr register) ("2 * " ++ regStr register),
         assign (regStr register) (regStr register ++ " * 2")],
        .addI register register register))
  ++ (generalPurposeRegisters.flatMap fun register =>
       (otherTwoList register).map fun otherRegister =>
         ([assign (regStr register) (regStr register ++ " + " ++ regStr otherRegister),
           assign (regStr register) (regStr otherRegister ++ " + " ++ regStr register)],
          .addI register register otherRegister))
  ++ generalPurposeRegisters.map (fun register =>
       let o1 := (otherTwo register).1
       let o2 := (otherTwo register).2
       ([assign (regStr register) (regStr o1 ++ " * " ++ regStr o2),
         assign (regStr register) (regStr o2 ++ " * " ++ regStr o1)],
        .mulI register o1 o2))
  ++ generalPurposeRegisters.map (fun register =>
       ([assign (regStr register) (regStr register ++ " * " ++ regStr register),
         assign (regStr register) (regStr register ++ "^2")],
        .mulI register register register))
  ++ (generalPurposeRegisters.flatMap fun register =>
       ((otherTwoList register).map fun otherRegister =>
         ([assign (regStr register) (regStr register ++ " * " ++ regStr otherRegister),
           assign (regStr register) (regStr otherRegister ++ " * " ++ regStr register)],
          .mulI register register otherRegister))
       ++ subtractionDefs ++ divisionDefs)

/-- The dispatch table: the six constant loads pushed first, then every
handler pushed by define, in order; the index of a handler is its
bytecode. -/
def instructionByBytecode : List InstrSpec :=
  generalPurposeRegisters.map .constByte
  ++ generalPurposeRegisters.map .constFloat
  ++ definitionList.map Prod.snd

/-- Insert or overwrite an association, as assignment to a key of a
plain JavaScript object does. -/
def assocUpd (l : List (String × ℕ)) (k : String) (v : ℕ) : List (String × ℕ) :=
  if l.any (fun kv => kv.1 = k) then
    l.map (fun kv => if kv.1 = k then (k, v) else kv)
  else l ++ [(k, v)]

/-- The mnemonic dictionary built by the define calls: each normalized
mnemonic of the i-th define call maps to bytecode 6 + i (the table
already holds the six constant loads when the first define runs);
later writes to an existing key overwrite it. -/
def bytecodeByKeyableMnemonic : List (String × ℕ) :=
  definitionList.enum.foldl
    (fun d p =>
      (p.2.1.map normalizeMnemonic).foldl (fun d m => assocUpd d m (6 + p.1)) d)
    []

/-- Dictionary lookup, undefined modelled as none. -/
def lookupMnemonic (k : String) : Option ℕ :=
  (bytecodeByKeyableMnemonic.find? (fun kv => kv.1 = k)).map Prod.snd

/-- InstructionSet.ts BytecodeForConstantAssignment: the byte-constant
opcode for a register letter. -/
def byteConstOpcode : Char → ℕ
  | 't' => 0
  | 'r' => 1
  | _ => 2

/-- The float-constant opcode for a register letter. -/
def floatConstOpcode : Char → ℕ
  | 't' => 3
  | 'r' => 4
  | _ => 5

/-- InstructionSet.ts tryToGetBytecodeForConstantAssignment: match the
constant-assignment pattern; load the constant with parseFloat; emit
the byte-constant opcode and the raw constant when the constant is
within the signed-byte range and strictly equals its parseInt value,
and otherwise the float-constant opcode followed by the four signed
bytes of the single-precision encoding. -/
def tryToGetBytecodeForConstantAssignment (normalizedMnemonic : String) :
    Option (List JsNum) :=
  match matchConstantPattern normalizedMnemonic with
  | none => none
  | some (register, constantAsString) =>
    let constant := jsParseFloat constantAsString
    let isConstantAByte :=
      jsLe (.fin (INT8_MIN : ℚ)) constant && jsLe constant (.fin (INT8_MAX : ℚ)) &&
      jsStrictEq constant (jsParseInt constantAsString)
    if isConstantAByte then some [.fin (byteConstOpcode register), constant]
    else some (.fin (floatConstOpcode register) :: getFloatBytes constant)

/-- The syntax-error message recorded for an unrecognized line. -/
def unknownInstructionMessage (line : String) (n : ℕ) : String :=
  "Unknown instruction (" ++ line ++ ") on line " ++ toLocaleStringModel n ++ "."

/-- Split program text on every line feed, as String.prototype.split
with a line-feed separator does (the model of program.split in
translateToBytecode). -/
def splitLinesAux (cur : List Char) : List Char → List String
  | [] => [String.mk cur.reverse]
  | c :: rest =>
    if c = '\n' then String.mk cur.reverse :: splitLinesAux [] rest
    else splitLinesAux (c :: cur) rest

/-- Split a program string into its lines. -/
def splitLines (s : String) : List String :=
  splitLinesAux [] s.toList

/-- One iteration of the line loop of translateToBytecode: skip blank
normalized lines; push the bytecode of a recognized keyable mnemonic
(only while no syntax error has been recorded); otherwise try the
constant-assignment pattern (its bytes are pushed unconditionally);
otherwise record the syntax error for the 1-based line number. -/
def lineStep (acc : List JsNum × List String) (il : ℕ × String) :
    List JsNum × List String :=
  let normalizedMnemonic := normalizeMnemonic il.2
  if normalizedMnemonic = "" then acc
  else
    match lookupMnemonic normalizedMnemonic with
    | some possibleBytecode =>
      if acc.2 = [] then (acc.1 ++ [.fin (possibleBytecode : ℚ)], acc.2) else acc
    | none =>
      match tryToGetBytecodeForConstantAssignment normalizedMnemonic with
      | none => (acc.1, acc.2 ++ [unknownInstructionMessage il.2 (il.1 + 1)])
      | some bs => (acc.1 ++ bs, acc.2)

/-- InstructionSet.ts translateToBytecode: split on line feeds, walk
every line, and produce the final bytecode (converted byte-wise as a
Uint8Array does) together with the syntax errors; the bytecode is empty
whenever any syntax error was recorded. -/
def translateToBytecode (program : String) : List ℕ × List String :=
  let acc := ((splitLines program).enum).foldl lineStep ([], [])
  ((if acc.2 = [] then acc.1 else []).map toUint8Wrap, acc.2)

/-- Registers.ts: the register file.  Every field holds the value its
width-enforcing setter last stored. -/
structure Registers where
  programCounter : JsNum
  argumentStackPointer : JsNum
  jumpStackPointer : JsNum
  t : JsNum
  r : JsNum
  y : JsNum
deriving Repr

/-- Registers.ts get for a general purpose register name. -/
def Registers.get (rs : Registers) : Reg → JsNum
  | .t => rs.t
  | .r => rs.r
  | .y => rs.y

/-- Registers.ts set for a general purpose register name: the setter of
each float register applies toFloat32. -/
def Registers.set (rs : Registers) (reg : Reg) (value : JsNum) : Registers :=
  match reg with
  | .t => { rs with t := toFloat32 value }
  | .r => { rs with r := toFloat32 value }
  | .y => { rs with y := toFloat32 value }

/-- Registers.ts reset: every register is stored through its setter
with value 0. -/
def Registers.reset (rs : Registers) : Registers :=
  { rs with
    programCounter := toUint32 (.fin 0)
    argumentStackPointer := toUint8 (.fin 0)
    jumpStackPointer := toUint8 (.fin 0)
    t := toFloat32 (.fin 0)
    r := toFloat32 (.fin 0)
    y := toFloat32 (.fin 0) }

/-- Gsx.ts BYTES_PER_MB. -/
def BYTES_PER_MB : ℕ := 1048576

/-- The RAM capacity, 3 megabytes, from the ArrayBuffer allocation in
Gsx.ts; the same number is the MAX_PROGRAM_SIZE limit of runProgram. -/
def MAX_PROGRAM_SIZE : ℕ := 3 * BYTES_PER_MB

/-- Gsx.ts: the machine state.  RAM is the unsigned byte at each
address; the argument stack is a Float32Array of 256 single-precision
values; the jump stack is a Uint32Array of 256 addresses. -/
structure Gsx where
  registers : Registers
  ram : ℕ → ℕ
  argumentStack : ℕ → JsNum
  jumpStack : ℕ → ℕ

/-- Store through the program-counter setter (toUint32). -/
def setProgramCounter (gsx : Gsx) (value : JsNum) : Gsx :=
  { gsx with registers := { gsx.registers with programCounter := toUint32 value } }

/-- Store through the argument-stack-pointer setter (toUint8). -/
def setArgumentStackPointer (gsx : Gsx) (value : JsNum) : Gsx :=
  { gsx with registers := { gsx.registers with argumentStackPointer := toUint8 value } }

/-- Store through the jump-stack-pointer setter (toUint8). -/
def setJumpStackPointer (gsx : Gsx) (value : JsNum) : Gsx :=
  { gsx with registers := { gsx.registers with jumpStackPointer := toUint8 value } }

/-- Pointwise update of a function modelling a mutable array. -/
def updFn {α : Type} (f : ℕ → α) (n : ℕ) (v : α) : ℕ → α :=
  fun a => if a = n then v else f a

/-- ECMAScript ToIndex as used by DataView accessors: NaN becomes 0,
finite values truncate toward zero, infinities throw (none). -/
def dataViewIndex : JsNum → Option ℤ
  | .nan => some 0
  | .inf _ => none
  | .fin q => some (truncQ q)

/-- DataView.getInt8 over the RAM buffer: bounds-checked signed byte
read; out-of-range access throws (none). -/
def ramGetInt8 (ram : ℕ → ℕ) (idx : JsNum) : Option ℤ :=
  match dataViewIndex idx with
  | none => none
  | some i =>
    if 0 ≤ i ∧ i + 1 ≤ (MAX_PROGRAM_SIZE : ℤ) then some (int8OfByte (ram i.toNat))
    else none

/-- DataView.setInt8 over the RAM buffer: the value is converted to its
byte pattern (ToInt8) and stored. -/
def ramSetInt8 (ram : ℕ → ℕ) (idx : JsNum) (value : JsNum) : Option (ℕ → ℕ) :=
  match dataViewIndex idx with
  | none => none
  | some i =>
    if 0 ≤ i ∧ i + 1 ≤ (MAX_PROGRAM_SIZE : ℤ) then
      some (updFn ram i.toNat (toUint8Wrap value))
    else none

/-- DataView.getFloat32 over the RAM buffer: four consecutive bytes,
most significant first, decoded as one single-precision value. -/
def ramGetFloat32 (ram : ℕ → ℕ) (idx : JsNum) : Option JsNum :=
  match dataViewIndex idx with
  | none => none
  | some i =>
    if 0 ≤ i ∧ i + 4 ≤ (MAX_PROGRAM_SIZE : ℤ) then
      some (decodeF32 (bitsOfBytes32 (ram i.toNat) (ram (i.toNat + 1))
        (ram (i.toNat + 2)) (ram (i.toNat + 3))))
    else none

/-- DataView.setFloat32 over the RAM buffer: the single-precision
encoding of the value is stored big-endian. -/
def ramSetFloat32 (ram : ℕ → ℕ) (idx : JsNum) (value : JsNum) : Option (ℕ → ℕ) :=
  match dataViewIndex idx with
  | none => none
  | some i =>
    if 0 ≤ i ∧ i + 4 ≤ (MAX_PROGRAM_SIZE : ℤ) then
      let bits := encRoundF32 value
      some (updFn (updFn (updFn (updFn ram
        (i.toNat) (bits / 2 ^ 24 % 256))
        (i.toNat + 1) (bits / 2 ^ 16 % 256))
        (i.toNat + 2) (bits / 2 ^ 8 % 256))
        (i.toNat + 3) (bits % 256))
    else none

/-- DataView.getInt8 over the program bytecode. -/
def progGetInt8 (program : List ℕ) (idx : JsNum) : Option ℤ :=
  match dataViewIndex idx with
  | none => none
  | some i =>
    if 0 ≤ i ∧ i + 1 ≤ (program.length : ℤ) then
      some (int8OfByte (program.getD i.toNat 0))
    else none

/-- DataView.getFloat32 over the program bytecode (big-endian). -/
def progGetFloat32 (program : List ℕ) (idx : JsNum) : Option JsNum :=
  match dataViewIndex idx with
  | none => none
  | some i =>
    if 0 ≤ i ∧ i + 4 ≤ (program.length : ℤ) then
      some (decodeF32 (bitsOfBytes32 (program.getD i.toNat 0)
        (program.getD (i.toNat + 1) 0) (program.getD (i.toNat + 2) 0)
        (program.getD (i.toNat + 3) 0)))
    else none

/-- Read an element of a 256-entry typed array: an integer index in
range yields the element, anything else the undefined value (none). -/
def typedArrayGet {α : Type} (arr : ℕ → α) (idx : JsNum) : Option α :=
  match idx with
  | .fin q =>
    if q.den = 1 ∧ 0 ≤ q.num ∧ q.num < 256 then some (arr q.num.toNat) else none
  | _ => none

/-- Write an element of the Uint32Array jump stack: the value wraps
through ToUint32; an out-of-range or non-integer index is ignored. -/
def typedArraySetU32 (arr : ℕ → ℕ) (idx : JsNum) (value : JsNum) : ℕ → ℕ :=
  match idx with
  | .fin q =>
    if q.den = 1 ∧ 0 ≤ q.num ∧ q.num < 256 then
      updFn arr q.num.toNat (toUint32Wrap value)
    else arr
  | _ => arr

/-- Write an element of the Float32Array argument stack: the value is
rounded to single precision; an out-of-range index is ignored. -/
def typedArraySetF32 (arr : ℕ → JsNum) (idx : JsNum) (value : JsNum) : ℕ → JsNum :=
  match idx with
  | .fin q =>
    if q.den = 1 ∧ 0 ≤ q.num ∧ q.num < 256 then
      updFn arr q.num.toNat (toFloat32 value)
    else arr
  | _ => arr

/-- Execute one handler from InstructionSet.ts on the machine state;
none models a thrown exception (an out-of-range DataView access).  The
comments of each branch cite the handler it embeds. -/
def execInstr : InstrSpec → Gsx → List ℕ → Option Gsx
  | .constByte reg, gsx, programBytecode =>
    -- registers.set(register, programBytecode.getInt8(pc)); pc += 1
    match progGetInt8 programBytecode gsx.registers.programCounter with
    | none => none
    | some b =>
      let gsx := { gsx with registers := gsx.registers.set reg (.fin (b : ℚ)) }
      some (setProgramCounter gsx (jsAdd gsx.registers.programCounter (.fin 1)))
  | .constFloat reg, gsx, programBytecode =>
    -- registers.set(register, programBytecode.getFloat32(pc)); pc += 4
    match progGetFloat32 programBytecode gsx.registers.programCounter with
    | none => none
    | some v =>
      let gsx := { gsx with registers := gsx.registers.set reg v }
      some (setProgramCounter gsx (jsAdd gsx.registers.programCounter (.fin 4)))
  | .exitI, gsx, _ =>
    -- if the jump stack pointer is strictly 0, pc := UINT32_MAX;
    -- else decrement the pointer and load pc from the jump stack
    if jsStrictEq gsx.registers.jumpStackPointer (.fin 0) then
      some (setProgramCounter gsx (.fin (UINT32_MAX : ℚ)))
    else
      let gsx := setJumpStackPointer gsx (jsSub gsx.registers.jumpStackPointer (.fin 1))
      let v : JsNum :=
        match typedArrayGet gsx.jumpStack gsx.registers.jumpStackPointer with
        | some n => .fin (n : ℚ)
        | none => .nan
      some (setProgramCounter gsx v)
  | .runReg reg, gsx, _ =>
    -- jumpStack[js] := 1 + pc; js += 1; pc := register value
    let gsx := { gsx with jumpStack := (typedArraySetU32 gsx.jumpStack
      gsx.registers.jumpStackPointer (jsAdd (.fin 1) gsx.registers.programCounter)) }
    let gsx := setJumpStackPointer gsx (jsAdd gsx.registers.jumpStackPointer (.fin 1))
    some (setProgramCounter gsx (gsx.registers.get reg))
  | .pushReg reg, gsx, _ =>
    -- argumentStack[as] := register value; as += 1
    let gsx := { gsx with argumentStack := (typedArraySetF32 gsx.argumentStack
      gsx.registers.argumentStackPointer (gsx.registers.get reg)) }
    some (setArgumentStackPointer gsx
      (jsAdd gsx.registers.argumentStackPointer (.fin 1)))
  | .popReg reg, gsx, _ =>
    -- as -= 1; registers.set(register, argumentStack[as])
    let gsx := setArgumentStackPointer gsx
      (jsSub gsx.registers.argumentStackPointer (.fin 1))
    let v : JsNum :=
      match typedArrayGet gsx.argumentStack gsx.registers.argumentStackPointer with
      | some w => w
      | none => .nan
    some { gsx with registers := gsx.registers.set reg v }
  | .readByte value addr, gsx, _ =>
    -- registers.set(value, ram.getInt8(address register))
    match ramGetInt8 gsx.ram (gsx.registers.get addr) with
    | none => none
    | some b => some { gsx with registers := gsx.registers.set value (.fin (b : ℚ)) }
  | .readFloat value addr, gsx, _ =>
    match ramGetFloat32 gsx.ram (gsx.registers.get addr) with
    | none => none
    | some v => some { gsx with registers := gsx.registers.set value v }
  | .writeByte addr value, gsx, _ =>
    -- ram.setInt8(address register, value register)
    match ramSetInt8 gsx.ram (gsx.registers.get addr) (gsx.registers.get value) with
    | none => none
    | some ram2 => some { gsx with ram := ram2 }
  | .writeFloat addr value, gsx, _ =>
    match ramSetFloat32 gsx.ram (gsx.registers.get addr) (gsx.registers.get value) with
    | none => none
    | some ram2 => some { gsx with ram := ram2 }
  | .addI target a b, gsx, _ =>
    some { gsx with registers := (gsx.registers.set target
      (jsAdd (gsx.registers.get a) (gsx.registers.get b))) }
  | .mulI target a b, gsx, _ =>
    some { gsx with registers := (gsx.registers.set target
      (jsMul (gsx.registers.get a) (gsx.registers.get b))) }
  | .subI target a b, gsx, _ =>
    some { gsx with registers := (gsx.registers.set target
      (jsSub (gsx.registers.get a) (gsx.registers.get b))) }
  | .divI target a b, gsx, _ =>
    some { gsx with registers := (gsx.registers.set target
      (jsDiv (gsx.registers.get a) (gsx.registers.get b))) }

/-- Outcome of a call to Gsx.runProgram: the thrown program-size error
(carrying the untouched state), a crash from a thrown exception during
execution, normal loop exit, or fuel exhaustion of the model. -/
inductive RunResult where
  | tooLarge (s : Gsx) : RunResult
  | crashed : RunResult
  | finished (s : Gsx) : RunResult
  | outOfFuel : RunResult

/-- Natural-number view of a program counter value (a toUint32 image is
a natural number or NaN). -/
def jsNumToIndexNat : JsNum → Option ℕ
  | .fin q => if q.den = 1 ∧ 0 ≤ q.num then some q.num.toNat else none
  | _ => none

/-- The while loop of Gsx.runProgram: while pc is less than the program
length, fetch the byte at pc, advance pc by one through the setter, and
dispatch on instructionByBytecode; indexing the table beyond its length
yields undefined and calling it throws (crashed). -/
def runLoop : ℕ → Gsx → List ℕ → RunResult
  | 0, _, _ => .outOfFuel
  | fuel + 1, gsx, program =>
    if jsLt gsx.registers.programCounter (.fin (program.length : ℚ)) then
      match jsNumToIndexNat gsx.registers.programCounter with
      | none => .crashed
      | some pcn =>
        let instructionBytecode := program.getD pcn 0 % 256
        let gsx := setProgramCounter gsx
          (jsAdd gsx.registers.programCounter (.fin 1))
        match instructionByBytecode.get? instructionBytecode with
        | none => .crashed
        | some instr =>
          match execInstr instr gsx program with
          | none => .crashed
          | some gsx2 => runLoop fuel gsx2 program
    else .finished gsx

/-- Gsx.runProgram: throw the program-size error when the bytecode is
at least MAX_PROGRAM_SIZE bytes (leaving the state untouched),
otherwise run the interpreter loop. -/
def runProgram (fuel : ℕ) (gsx : Gsx) (program : List ℕ) : RunResult :=
  if MAX_PROGRAM_SIZE ≤ program.length then .tooLarge gsx
  else runLoop fuel gsx program

/-- Gsx.reset: reset the registers and zero-fill the RAM buffer; the
argument-stack and jump-stack buffers are not touched. -/
def Gsx.reset (gsx : Gsx) : Gsx :=
  { gsx with registers := gsx.registers.reset, ram := fun _ => 0 }

/-- A freshly constructed machine: all registers zero, RAM zero, both
stack buffers zero-initialized. -/
def initGsx : Gsx :=
  { registers := ⟨.fin 0, .fin 0, .fin 0, .fin 0, .fin 0, .fin 0⟩
    ram := fun _ => 0
    argumentStack := fun _ => .fin 0
    jumpStack := fun _ => 0 }

/-- A line is reported as unknown when its normalized form is nonblank,
is not a dictionary key, and does not match the constant-load pattern. -/
def isUnknownLine (line : String) : Bool :=
  (!(normalizeMnemonic line = "")) &&
  (lookupMnemonic (normalizeMnemonic line)).isNone &&
  (tryToGetBytecodeForConstantAssignment (normalizeMnemonic line)).isNone

/-- Projection: did runProgram crash with a thrown exception. -/
def RunResult.isCrashed : RunResult → Bool
  | .crashed => true
  | _ => false

/-- Projection: did runProgram throw the program-size error. -/
def RunResult.isTooLargeR : RunResult → Bool
  | .tooLarge _ => true
  | _ => false

/-- Projection: did the interpreter loop exit normally. -/
def RunResult.isFinished : RunResult → Bool
  | .finished _ => true
  | _ => false

/-- Program counter of a normally finished run (NaN otherwise). -/
def finishedPC : RunResult → JsNum
  | .finished s => s.registers.programCounter
  | _ => .nan

set_option maxRecDepth 10000 in
/-- Claim C1: the spec asserts that after the opcode-table builder
finishes, instructionByBytecode has exactly 256 entries, the mnemonic
dictionary has exactly 250 entries, every opcode from 6 to 255 is
reachable by a normalized mnemonic, and every key maps to a unique
opcode.  The code violates this (and its own comments, which promise
256 instructions of which 250 are keyable): because the loop opened for
the register-times-other block only closes after the division block,
the subtraction and division definitions run three times, producing a
178-entry table and a 127-key dictionary in which the subtraction and
division keys all point at the last copy, leaving opcodes such as 90
unreachable and opcodes from 178 up nonexistent, so dispatching such a
byte (for example bytecode 200) crashes. -/
theorem opcode_table_actual_shape :
    instructionByBytecode.length = 178 ∧
    bytecodeByKeyableMnemonic.length = 127 ∧
    ((bytecodeByKeyableMnemonic.map Prod.snd).dedup.length = 100 ∧
      bytecodeByKeyableMnemonic.all (fun kv => kv.2 ≠ 90) = true) ∧
    (instructionByBytecode.get? 200).isNone = true ∧
    (runProgram 1 initGsx [200]).isCrashed = true := by
  exact ⟨by decide, by decide, ⟨by decide, by decide⟩, by decide, by decide⟩

theorem pow2_def (e : ℤ) : pow2 e = (2 : ℚ) ^ e := by
  unfold pow2
  split
  next h => push_cast; rw [← zpow_natCast, Int.toNat_of_nonneg h]
  next h =>
    push_cast
    rw [← zpow_natCast, Int.toNat_of_nonneg (by omega : (0:ℤ) ≤ -e), one_div,
      ← zpow_neg, neg_neg]

theorem pow2_pos (e : ℤ) : 0 < pow2 e := by
  rw [pow2_def]; exact zpow_pos (by norm_num) e

theorem pow2_le_pow2 {a b : ℤ} (h : a ≤ b) : pow2 a ≤ pow2 b := by
  rw [pow2_def, pow2_def]; exact zpow_le_zpow_right₀ (by norm_num) h

theorem pow2_natCast (n : ℕ) : pow2 (n : ℤ) = ((2 ^ n : ℕ) : ℚ) := by
  rw [pow2_def]; push_cast; rw [← zpow_natCast]

theorem qFloorLog2_bounds (q : ℚ) (h : 0 < q) :
    pow2 (qFloorLog2 q) ≤ q ∧ q < pow2 (qFloorLog2 q + 1) := by
  have hnum : 0 < q.num := Rat.num_pos.mpr h
  have hden : 0 < (q.den : ℚ) := by exact_mod_cast q.pos
  have hq : ((q.num : ℚ)) / ((q.den : ℚ)) = q := by exact_mod_cast Rat.num_div_den q
  set L : ℤ := (Nat.log2 q.num.natAbs : ℤ) with hL
  set M : ℤ := (Nat.log2 q.den : ℤ) with hM
  have hNA : ((q.num.natAbs : ℚ)) = (q.num : ℚ) := by
    rw [Int.cast_natAbs]
    exact_mod_cast abs_of_pos hnum
  have hA : (2:ℚ) ^ L ≤ (q.num : ℚ) := by
    have h1 : 2 ^ Nat.log2 q.num.natAbs ≤ q.num.natAbs := Nat.log2_self_le (by omega)
    have h2 : ((2 ^ Nat.log2 q.num.natAbs : ℕ) : ℚ) ≤ ((q.num.natAbs : ℕ) : ℚ) := by
      exact_mod_cast h1
    rw [hNA] at h2
    calc (2:ℚ) ^ L = ((2 ^ Nat.log2 q.num.natAbs : ℕ) : ℚ) := by
          rw [hL, zpow_natCast]; push_cast; ring
      _ ≤ _ := h2
  have hB : (q.num : ℚ) < 2 ^ (L + 1) := by
    have h1 : q.num.natAbs < 2 ^ (Nat.log2 q.num.natAbs + 1) := Nat.lt_log2_self
    have h2 : ((q.num.natAbs : ℕ) : ℚ) < ((2 ^ (Nat.log2 q.num.natAbs + 1) : ℕ) : ℚ) := by
      exact_mod_cast h1
    rw [hNA] at h2
    calc (q.num : ℚ) < ((2 ^ (Nat.log2 q.num.natAbs + 1) : ℕ) : ℚ) := h2
      _ = 2 ^ (L + 1) := by
          rw [hL]; push_cast; rw [← zpow_natCast]; push_cast; ring
  have hC : (2:ℚ) ^ M ≤ (q.den : ℚ) := by
    have h1 : 2 ^ Nat.log2 q.den ≤ q.den := Nat.log2_self_le (by
      have := q.pos; omega)
    have h2 : ((2 ^ Nat.log2 q.den : ℕ) : ℚ) ≤ ((q.den : ℕ) : ℚ) := by exact_mod_cast h1
    calc (2:ℚ) ^ M = ((2 ^ Nat.log2 q.den : ℕ) : ℚ) := by
          rw [hM, zpow_natCast]; push_cast; ring
      _ ≤ _ := h2
  have hD : (q.den : ℚ) < 2 ^ (M + 1) := by
    have h1 : q.den < 2 ^ (Nat.log2 q.den + 1) := Nat.lt_log2_self
    have h2 : ((q.den : ℕ) : ℚ) < ((2 ^ (Nat.log2 q.den + 1) : ℕ) : ℚ) := by
      exact_mod_cast h1
    calc (q.den : ℚ) < ((2 ^ (Nat.log2 q.den + 1) : ℕ) : ℚ) := h2
      _ = 2 ^ (M + 1) := by
          rw [hM]; push_cast; rw [← zpow_natCast]; push_cast; ring
  have central1 : pow2 (L - M - 1) < q := by
    rw [pow2_def]
    have he : (2:ℚ) ^ (L - M - 1) = 2 ^ L / 2 ^ (M + 1) := by
      rw [← zpow_sub₀ (by norm_num : (2:ℚ) ≠ 0)]; ring_nf
    rw [he, ← hq, div_lt_div_iff₀ (by positivity) hden]
    calc (2:ℚ) ^ L * (q.den : ℚ) ≤ (q.num : ℚ) * (q.den : ℚ) :=
          mul_le_mul_of_nonneg_right hA (le_of_lt hden)
      _ < (q.num : ℚ) * 2 ^ (M + 1) :=
          mul_lt_mul_of_pos_left hD (by exact_mod_cast hnum)
  have central2 : q < pow2 (L - M + 1) := by
    rw [pow2_def]
    have he : (2:ℚ) ^ (L - M + 1) = 2 ^ (L + 1) / 2 ^ M := by
      rw [← zpow_sub₀ (by norm_num : (2:ℚ) ≠ 0)]; ring_nf
    rw [he, ← hq, div_lt_div_iff₀ hden (by positivity)]
    calc (q.num : ℚ) * 2 ^ M ≤ (q.num : ℚ) * (q.den : ℚ) :=
          mul_le_mul_of_nonneg_left hC (by positivity)
      _ < 2 ^ (L + 1) * (q.den : ℚ) := mul_lt_mul_of_pos_right hB hden
  have hout : qFloorLog2 q = if pow2 (L - M) ≤ q then L - M else L - M - 1 := by
    simp only [qFloorLog2, hL, hM]
  by_cases hbr : pow2 (L - M) ≤ q
  · rw [hout, if_pos hbr]
    exact ⟨hbr, central2⟩
  · rw [hout, if_neg hbr]
    constructor
    · exact le_of_lt central1
    · have : L - M - 1 + 1 = L - M := by ring
      rw [this]
      exact lt_of_not_ge hbr

theorem rndHalfEven_intCast (m : ℤ) : rndHalfEven (m : ℚ) = m := by
  unfold rndHalfEven
  norm_num

theorem pow2_add (a b : ℤ) : pow2 (a + b) = pow2 a * pow2 b := by
  rw [pow2_def, pow2_def, pow2_def]
  exact zpow_add₀ (by norm_num) a b

theorem pow2_zero : pow2 0 = 1 := by rw [pow2_def]; norm_num

theorem roundPos_f64_natCast (m : ℕ) (h0 : 0 < m) (hm : m < 2 ^ 53) :
    roundPos fmt64 (m : ℚ) = some (m : ℚ) := by
  have hq : (0:ℚ) < (m : ℚ) := by exact_mod_cast h0
  obtain ⟨hlb, hub⟩ := qFloorLog2_bounds (m : ℚ) hq
  have hlog_lb : 0 ≤ qFloorLog2 (m : ℚ) := by
    by_contra hcon
    push_neg at hcon
    have h1 : qFloorLog2 (m : ℚ) + 1 ≤ 0 := by omega
    have h2 : (m : ℚ) < pow2 0 := lt_of_lt_of_le hub (pow2_le_pow2 h1)
    rw [pow2_zero] at h2
    have : m < 1 := by exact_mod_cast h2
    omega
  have hlog_ub : qFloorLog2 (m : ℚ) ≤ 52 := by
    by_contra hcon
    push_neg at hcon
    have h1 : (53 : ℤ) ≤ qFloorLog2 (m : ℚ) := by omega
    have h2 : pow2 53 ≤ (m : ℚ) := le_trans (pow2_le_pow2 h1) hlb
    have h3 : pow2 53 = ((2 ^ 53 : ℕ) : ℚ) := by
      have := pow2_natCast 53
      exact_mod_cast this
    rw [h3] at h2
    have : (2 : ℕ) ^ 53 ≤ m := by exact_mod_cast h2
    omega
  set e : ℤ := qFloorLog2 (m : ℚ) with he
  have hmax : max e fmt64.emin = e := by
    have : fmt64.emin = (-1022 : ℤ) := rfl
    rw [this]
    omega
  have hk : (0:ℤ) ≤ 52 - e := by omega
  have hkey : (m : ℚ) * pow2 (-(e - ((fmt64.prec : ℤ) - 1))) =
      ((m * 2 ^ (52 - e).toNat : ℕ) : ℚ) := by
    have hp : fmt64.prec = 53 := rfl
    rw [hp]
    have h1 : (-(e - ((53 : ℕ) - 1 : ℤ))) = ((52 - e).toNat : ℤ) := by
      rw [Int.toNat_of_nonneg hk]; ring
    rw [h1, pow2_natCast]
    push_cast
    ring
  have hrnd : rndHalfEven ((m : ℚ) * pow2 (-(e - ((fmt64.prec : ℤ) - 1)))) =
      ((m * 2 ^ (52 - e).toNat : ℕ) : ℤ) := by
    rw [hkey]
    have := rndHalfEven_intCast ((m * 2 ^ (52 - e).toNat : ℕ) : ℤ)
    rw [← this]
    norm_num
  have hval : ((((m * 2 ^ (52 - e).toNat : ℕ) : ℤ)) : ℚ) * pow2 (e - ((fmt64.prec : ℤ) - 1)) =
      (m : ℚ) := by
    have hp : fmt64.prec = 53 := rfl
    rw [hp]
    push_cast
    have h1 : ((2 : ℚ) ^ (52 - e).toNat) = pow2 ((52 - e).toNat : ℤ) := by
      rw [pow2_natCast]; push_cast; ring
    rw [h1, Int.toNat_of_nonneg hk]
    rw [mul_assoc, ← pow2_add]
    norm_num [pow2_zero]
  have hunf : roundPos fmt64 (m : ℚ) =
      if fmt64.emax < max (qFloorLog2 (m : ℚ)) fmt64.emin then none
      else if rndHalfEven ((m : ℚ) * pow2 (-(max (qFloorLog2 (m : ℚ)) fmt64.emin -
            ((fmt64.prec : ℤ) - 1)))) = 2 ^ fmt64.prec ∧
          max (qFloorLog2 (m : ℚ)) fmt64.emin = fmt64.emax then none
      else some ((rndHalfEven ((m : ℚ) * pow2 (-(max (qFloorLog2 (m : ℚ)) fmt64.emin -
            ((fmt64.prec : ℤ) - 1)))) : ℚ) *
          pow2 (max (qFloorLog2 (m : ℚ)) fmt64.emin - ((fmt64.prec : ℤ) - 1))) := rfl
  rw [hunf, ← he, hmax, hrnd, hval]
  have hnotlt : ¬ (fmt64.emax < e) := by simp only [fmt64]; omega
  have hnotcarry : ¬ (((m * 2 ^ (52 - e).toNat : ℕ) : ℤ) = 2 ^ fmt64.prec ∧
      e = fmt64.emax) := by
    rintro ⟨-, habs⟩
    simp only [fmt64] at habs
    omega
  rw [if_neg hnotlt, if_neg hnotcarry]

theorem roundF64Val_natCast (m : ℕ) (hm : m < 2 ^ 53) :
    roundF64Val (m : ℚ) = .fin (m : ℚ) := by
  rcases Nat.eq_zero_or_pos m with h0 | h0
  · subst h0; simp [roundF64Val]
  · have hq : (0:ℚ) < (m : ℚ) := by exact_mod_cast h0
    unfold roundF64Val
    rw [if_neg hq.ne', if_pos hq, roundPos_f64_natCast m h0 hm]

theorem truncQ_natCast (k : ℕ) : truncQ (k : ℚ) = (k : ℤ) := by
  unfold truncQ
  rw [if_pos (by positivity)]
  exact_mod_cast Int.floor_natCast k

theorem jsLt_fin (a b : ℚ) : jsLt (.fin a) (.fin b) = decide (a < b) := rfl

theorem jsAdd_natCast (a b : ℕ) (h : a + b < 2 ^ 53) :
    jsAdd (.fin (a : ℚ)) (.fin (b : ℚ)) = .fin ((a + b : ℕ) : ℚ) := by
  show roundF64Val ((a : ℚ) + (b : ℚ)) = _
  rw [show ((a : ℚ) + (b : ℚ)) = ((a + b : ℕ) : ℚ) by push_cast; ring]
  exact roundF64Val_natCast _ h

theorem roundF64Val_negNatCast (m : ℕ) (h0 : 0 < m) (hm : m < 2 ^ 53) :
    roundF64Val (-(m : ℚ)) = .fin (-(m : ℚ)) := by
  have hq : (0:ℚ) < (m : ℚ) := by exact_mod_cast h0
  unfold roundF64Val
  rw [if_neg (by linarith), if_neg (by linarith), neg_neg,
    roundPos_f64_natCast m h0 hm]

theorem toUint8_natCast (k : ℕ) : toUint8 (.fin (k : ℚ)) = .fin ((min k 255 : ℕ) : ℚ) := by
  unfold toUint8 integerSaturate
  rw [jsLt_fin, jsLt_fin]
  rw [decide_eq_false (not_lt.mpr (by positivity : (0:ℚ) ≤ (k:ℚ)))]
  by_cases hk : k ≤ 255
  · have h1 : ¬ ((UINT8_MAX:ℚ) < (k:ℚ)) := by
      simp only [UINT8_MAX]
      exact_mod_cast not_lt.mpr hk
    rw [decide_eq_false h1]
    simp only [Bool.false_eq_true, if_false]
    rw [truncQ_natCast]
    norm_num [min_eq_left hk]
  · have h1 : ((UINT8_MAX:ℚ) < (k:ℚ)) := by
      simp only [UINT8_MAX]
      exact_mod_cast lt_of_not_ge hk
    rw [decide_eq_true h1]
    simp only [Bool.false_eq_true, if_false, if_true]
    norm_num [min_eq_right (le_of_not_ge hk), UINT8_MAX]

theorem toUint32_natCast (k : ℕ) :
    toUint32 (.fin (k : ℚ)) = .fin ((min k UINT32_MAX : ℕ) : ℚ) := by
  unfold toUint32 integerSaturate
  rw [jsLt_fin, jsLt_fin]
  rw [decide_eq_false (not_lt.mpr (by positivity : (0:ℚ) ≤ (k:ℚ)))]
  by_cases hk : k ≤ UINT32_MAX
  · have h1 : ¬ (((UINT32_MAX:ℕ):ℚ) < (k:ℚ)) := by
      exact_mod_cast not_lt.mpr hk
    rw [decide_eq_false h1]
    simp only [Bool.false_eq_true, if_false]
    rw [truncQ_natCast]
    norm_num [min_eq_left hk]
  · have h1 : (((UINT32_MAX:ℕ):ℚ) < (k:ℚ)) := by
      exact_mod_cast lt_of_not_ge hk
    rw [decide_eq_true h1]
    simp only [Bool.false_eq_true, if_false, if_true]
    norm_num [min_eq_right (le_of_not_ge hk)]

theorem toUint32Wrap_natCast (k : ℕ) :
    toUint32Wrap (.fin (k : ℚ)) = k % 4294967296 := by
  simp only [toUint32Wrap, truncQ_natCast]
  omega

theorem toFloat32_zero : toFloat32 (.fin 0) = .fin 0 := by with_unfolding_all decide

/-- Claim C8: after reset, all six registers equal 0 and every one of
the RAM bytes equals 0, while the contents of the 256-entry
argument-stack and jump-stack buffers are unchanged. -/
theorem reset_zeroes_registers_and_ram (gsx : Gsx) :
    (gsx.reset).registers.programCounter = .fin 0 ∧
    (gsx.reset).registers.argumentStackPointer = .fin 0 ∧
    (gsx.reset).registers.jumpStackPointer = .fin 0 ∧
    (gsx.reset).registers.t = .fin 0 ∧
    (gsx.reset).registers.r = .fin 0 ∧
    (gsx.reset).registers.y = .fin 0 ∧
    (∀ a : ℕ, a < MAX_PROGRAM_SIZE → (gsx.reset).ram a = 0) ∧
    (gsx.reset).argumentStack = gsx.argumentStack ∧
    (gsx.reset).jumpStack = gsx.jumpStack := by
  exact ⟨rfl, rfl, rfl, toFloat32_zero, toFloat32_zero, toFloat32_zero,
    fun a _ => rfl, rfl, rfl⟩

theorem natCast_num_toNat (n : ℕ) : ((n : ℚ)).num.toNat = n := by simp

theorem typedArraySetF32_natCast (arr : ℕ → JsNum) (n : ℕ) (v : JsNum) (hn : n < 256) :
    typedArraySetF32 arr (.fin (n : ℚ)) v = updFn arr n (toFloat32 v) := by
  simp only [typedArraySetF32]
  rw [if_pos ⟨by simp, by simp, by simp; exact_mod_cast hn⟩, natCast_num_toNat]

theorem push_writes_then_saturates (gsx : Gsx) (reg : Reg) (n : ℕ) (p : List ℕ)
    (hasp : gsx.registers.argumentStackPointer = .fin (n : ℚ)) (hn : n < 256) :
    ∃ gsx2, execInstr (.pushReg reg) gsx p = some gsx2 ∧
      gsx2.argumentStack = updFn gsx.argumentStack n (toFloat32 (gsx.registers.get reg)) ∧
      gsx2.registers.argumentStackPointer = .fin ((min (n + 1) 255 : ℕ) : ℚ) ∧
      gsx2.registers.programCounter = gsx.registers.programCounter ∧
      gsx2.registers.t = gsx.registers.t ∧
      gsx2.registers.r = gsx.registers.r ∧
      gsx2.registers.y = gsx.registers.y ∧
      gsx2.ram = gsx.ram ∧ gsx2.jumpStack = gsx.jumpStack := by
  have hadd : jsAdd (JsNum.fin (n : ℚ)) (.fin 1) = .fin ((n + 1 : ℕ) : ℚ) := by
    have h1 : ((1 : ℕ) : ℚ) = (1 : ℚ) := by norm_num
    rw [← h1]
    exact jsAdd_natCast n 1 (by omega)
  refine ⟨_, rfl, ?_, ?_, ?_, ?_, ?_, ?_, ?_, ?_⟩ <;>
    simp only [execInstr, setArgumentStackPointer, hasp,
      typedArraySetF32_natCast _ _ _ hn, hadd, toUint8_natCast]

theorem typedArrayGet_natCast {α : Type} (arr : ℕ → α) (n : ℕ) (hn : n < 256) :
    typedArrayGet arr (.fin (n : ℚ)) = some (arr n) := by
  simp only [typedArrayGet]
  rw [if_pos ⟨by simp, by simp, by simp; exact_mod_cast hn⟩, natCast_num_toNat]

theorem jsSub_one_toUint8 (n : ℕ) (hn : n < 256) :
    toUint8 (jsSub (.fin (n : ℚ)) (.fin 1)) = .fin ((n - 1 : ℕ) : ℚ) := by
  rcases Nat.eq_zero_or_pos n with h0 | h0
  · subst h0
    have h1 : jsSub (.fin ((0:ℕ) : ℚ)) (.fin 1) = .fin (-1) := by
      show roundF64Val (((0:ℕ):ℚ) - 1) = .fin (-1)
      rw [show (((0:ℕ):ℚ) - 1) = -((1:ℕ):ℚ) by norm_num]
      rw [roundF64Val_negNatCast 1 (by norm_num) (by norm_num)]
      norm_num
    rw [h1]
    show integerSaturate (.fin (-1)) 0 (UINT8_MAX : ℚ) = .fin ((0 - 1 : ℕ) : ℚ)
    unfold integerSaturate
    rw [jsLt_fin, decide_eq_true (by norm_num : (-1:ℚ) < 0)]
    norm_num
  · have hcast : (n:ℚ) - 1 = ((n - 1 : ℕ) : ℚ) := by
      push_cast [h0]
      ring
    show toUint8 (roundF64Val ((n:ℚ) - 1)) = _
    rw [hcast, roundF64Val_natCast _ (by omega), toUint8_natCast]
    have : min (n - 1) 255 = n - 1 := by omega
    rw [this]

theorem pop_saturates_then_reads (gsx : Gsx) (reg : Reg) (n : ℕ) (p : List ℕ)
    (hasp : gsx.registers.argumentStackPointer = .fin (n : ℚ)) (hn : n < 256) :
    ∃ gsx2, execInstr (.popReg reg) gsx p = some gsx2 ∧
      gsx2.registers = ({ gsx.registers with
        argumentStackPointer := .fin ((n - 1 : ℕ) : ℚ) }).set reg
          (gsx.argumentStack (n - 1)) ∧
      gsx2.argumentStack = gsx.argumentStack ∧
      gsx2.ram = gsx.ram ∧ gsx2.jumpStack = gsx.jumpStack := by
  refine ⟨_, rfl, ?_, rfl, rfl, rfl⟩
  simp only [execInstr, setArgumentStackPointer, hasp, jsSub_one_toUint8 n hn,
    typedArrayGet_natCast _ _ (by omega : n - 1 < 256)]

/-- Claim C9: push writes the register value at argumentStack[AS] and
then sets AS to the 8-bit saturation of AS + 1; pop sets AS to the
8-bit saturation of AS - 1 and then reads argumentStack[AS] into the
register; underflow and overflow are not detected, so push at AS = 255
leaves AS = 255 and pop at AS = 0 leaves AS = 0. -/
theorem argument_stack_push_pop_saturation :
    (∀ (gsx : Gsx) (reg : Reg) (n : ℕ) (p : List ℕ),
      gsx.registers.argumentStackPointer = .fin (n : ℚ) → n < 256 →
      ∃ gsx2, execInstr (.pushReg reg) gsx p = some gsx2 ∧
        gsx2.argumentStack =
          updFn gsx.argumentStack n (toFloat32 (gsx.registers.get reg)) ∧
        gsx2.registers.argumentStackPointer = .fin ((min (n + 1) 255 : ℕ) : ℚ)) ∧
    (∀ (gsx : Gsx) (reg : Reg) (n : ℕ) (p : List ℕ),
      gsx.registers.argumentStackPointer = .fin (n : ℚ) → n < 256 →
      ∃ gsx2, execInstr (.popReg reg) gsx p = some gsx2 ∧
        gsx2.registers = ({ gsx.registers with
          argumentStackPointer := .fin ((n - 1 : ℕ) : ℚ) }).set reg
            (gsx.argumentStack (n - 1)) ∧
        gsx2.argumentStack = gsx.argumentStack) := by
  constructor
  · intro gsx reg n p hasp hn
    obtain ⟨g2, h1, h2, h3, -, -, -, -, -, -⟩ :=
      push_writes_then_saturates gsx reg n p hasp hn
    exact ⟨g2, h1, h2, h3⟩
  · intro gsx reg n p hasp hn
    obtain ⟨g2, h1, h2, h3, -, -⟩ := pop_saturates_then_reads gsx reg n p hasp hn
    exact ⟨g2, h1, h2, h3⟩

/-- Witness for C9 at the two saturation edges: push with AS = 255
leaves AS = 255, and pop with AS = 0 leaves AS = 0. -/
theorem argument_stack_push_pop_saturation_witness :
    (∃ gsx2, execInstr (.pushReg .t)
        { initGsx with registers :=
          { initGsx.registers with argumentStackPointer := .fin 255 } } [] =
          some gsx2 ∧
        gsx2.registers.argumentStackPointer = .fin 255) ∧
    (∃ gsx2, execInstr (.popReg .t) initGsx [] = some gsx2 ∧
      gsx2.registers.argumentStackPointer = .fin 0) := by
  constructor
  · obtain ⟨g2, h1, -, h3⟩ := argument_stack_push_pop_saturation.1
      { initGsx with registers :=
        { initGsx.registers with argumentStackPointer := .fin 255 } }
      .t 255 [] (by norm_num) (by norm_num)
    refine ⟨g2, h1, ?_⟩
    rw [h3]
    norm_num
  · obtain ⟨g2, h1, h2, -⟩ := argument_stack_push_pop_saturation.2
      initGsx .t 0 [] (by norm_num [initGsx]) (by norm_num)
    refine ⟨g2, h1, ?_⟩
    rw [h2]
    norm_num [Registers.set]

theorem runProgram_small (fuel : ℕ) (gsx : Gsx) (p : List ℕ)
    (h : p.length < MAX_PROGRAM_SIZE) :
    runProgram fuel gsx p = runLoop fuel gsx p := by
  rw [runProgram, if_neg (not_le.mpr h)]

theorem runLoop_stop (fuel : ℕ) (gsx : Gsx) (p : List ℕ)
    (h : jsLt gsx.registers.programCounter (.fin (p.length : ℚ)) = false) :
    runLoop (fuel + 1) gsx p = .finished gsx := by
  rw [runLoop]
  simp [h]

theorem runLoop_step (fuel : ℕ) (gsx : Gsx) (p : List ℕ) (pcn : ℕ)
    (instr : InstrSpec) (gsx2 : Gsx)
    (h1 : jsLt gsx.registers.programCounter (.fin (p.length : ℚ)) = true)
    (h2 : jsNumToIndexNat gsx.registers.programCounter = some pcn)
    (h3 : instructionByBytecode.get? (p.getD pcn 0 % 256) = some instr)
    (h4 : execInstr instr
      (setProgramCounter gsx (jsAdd gsx.registers.programCounter (.fin 1))) p =
      some gsx2) :
    runLoop (fuel + 1) gsx p = runLoop fuel gsx2 p := by
  rw [runLoop]
  simp only [h1, if_true, h2, h3, h4]

theorem runLoop_finished_not_lt : ∀ (fuel : ℕ) (gsx : Gsx) (p : List ℕ) (gsx2 : Gsx),
    runLoop fuel gsx p = .finished gsx2 →
    jsLt gsx2.registers.programCounter (.fin (p.length : ℚ)) = false := by
  intro fuel
  induction fuel with
  | zero =>
    intro gsx p gsx2 h
    simp [runLoop] at h
  | succ n ih =>
    intro gsx p gsx2 h
    rw [runLoop] at h
    split at h
    · split at h
      · exact absurd h (by simp)
      · dsimp only at h
        split at h
        · exact absurd h (by simp)
        · split at h
          · exact absurd h (by simp)
          · exact ih _ p gsx2 h
    · cases h
      simpa using (by assumption : ¬ jsLt gsx.registers.programCounter
        (.fin (p.length : ℚ)) = true)

theorem jsAdd_zero_one : jsAdd (.fin 0) (.fin 1) = .fin 1 := by
  simpa using jsAdd_natCast 0 1 (by norm_num)

theorem toUint32_one : toUint32 (.fin 1) = .fin 1 := by
  simpa using toUint32_natCast 1

theorem toUint32_uint32max :
    toUint32 (.fin ((UINT32_MAX : ℕ) : ℚ)) = .fin ((UINT32_MAX : ℕ) : ℚ) := by
  simpa using toUint32_natCast UINT32_MAX

theorem exit_run_from_reset : ∃ g, runProgram 2 initGsx [6] = .finished g ∧
    g.registers.programCounter = .fin ((UINT32_MAX : ℕ) : ℚ) := by
  have hsmall : ([6] : List ℕ).length < MAX_PROGRAM_SIZE := by
    norm_num [MAX_PROGRAM_SIZE, BYTES_PER_MB]
  have hs1 : setProgramCounter initGsx
      (jsAdd initGsx.registers.programCounter (.fin 1)) =
      { initGsx with registers :=
        { initGsx.registers with programCounter := .fin 1 } } := by
    show setProgramCounter initGsx (jsAdd (.fin 0) (.fin 1)) = _
    rw [jsAdd_zero_one]
    show { initGsx with registers :=
      { initGsx.registers with programCounter := toUint32 (.fin 1) } } = _
    rw [toUint32_one]
  have hex : execInstr .exitI
      { initGsx with registers :=
        { initGsx.registers with programCounter := .fin 1 } } [6] =
      some { initGsx with registers :=
        { initGsx.registers with
          programCounter := toUint32 (.fin ((UINT32_MAX : ℕ) : ℚ)) } } := by
    simp only [execInstr]
    have hjsp : jsStrictEq initGsx.registers.jumpStackPointer (.fin 0) = true := rfl
    rw [if_pos hjsp]
    rfl
  refine ⟨{ initGsx with registers := { initGsx.registers with
      programCounter := toUint32 (.fin ((UINT32_MAX : ℕ) : ℚ)) } }, ?_, ?_⟩
  · rw [runProgram_small 2 initGsx [6] hsmall]
    rw [runLoop_step 1 initGsx [6] 0 .exitI _ (by decide) (by decide) (by decide)
      (by rw [hs1]; exact hex)]
    refine runLoop_stop 0 _ [6] ?_
    show jsLt (toUint32 (.fin ((UINT32_MAX : ℕ) : ℚ))) (.fin (1 : ℚ)) = false
    rw [toUint32_uint32max]
    decide
  · show toUint32 (.fin ((UINT32_MAX : ℕ) : ℚ)) = .fin ((UINT32_MAX : ℕ) : ℚ)
    exact toUint32_uint32max

theorem push_run_from_reset : ∃ g, runProgram 2 initGsx [10] = .finished g ∧
    g.registers.programCounter = .fin 1 := by
  have hsmall : ([10] : List ℕ).length < MAX_PROGRAM_SIZE := by
    norm_num [MAX_PROGRAM_SIZE, BYTES_PER_MB]
  have hs1 : setProgramCounter initGsx
      (jsAdd initGsx.registers.programCounter (.fin 1)) =
      { initGsx with registers :=
        { initGsx.registers with programCounter := .fin 1 } } := by
    show setProgramCounter initGsx (jsAdd (.fin 0) (.fin 1)) = _
    rw [jsAdd_zero_one]
    show { initGsx with registers :=
      { initGsx.registers with programCounter := toUint32 (.fin 1) } } = _
    rw [toUint32_one]
  obtain ⟨g2, hexec, hstack, hasp2, hpc2, -, -, -, -, -⟩ :=
    push_writes_then_saturates
      { initGsx with registers :=
        { initGsx.registers with programCounter := .fin 1 } }
      .t 0 [10] (by norm_num [initGsx]) (by norm_num)
  refine ⟨g2, ?_, ?_⟩
  · rw [runProgram_small 2 initGsx [10] hsmall]
    rw [runLoop_step 1 initGsx [10] 0 (.pushReg .t) g2 (by decide) (by decide)
      (by decide) (by rw [hs1]; exact hexec)]
    refine runLoop_stop 0 _ [10] ?_
    rw [hpc2]
    decide
  · rw [hpc2]

/-- Claim C2 (amended): whenever runProgram returns normally, the final
program counter no longer compares below the bytecode length, and
termination through exit with an empty jump stack leaves PC equal to
2 ^ 32 - 1; natural termination, however, merely leaves PC one past the
executed bytes rather than 2 ^ 32 - 1. -/
theorem run_returns_pc_past_program :
    (∀ (fuel : ℕ) (gsx : Gsx) (p : List ℕ) (gsx2 : Gsx),
      runProgram fuel gsx p = .finished gsx2 →
      jsLt gsx2.registers.programCounter (.fin (p.length : ℚ)) = false) ∧
    (∃ g, runProgram 2 initGsx [6] = .finished g ∧
      g.registers.programCounter = .fin ((UINT32_MAX : ℕ) : ℚ)) := by
  constructor
  · intro fuel gsx p gsx2 h
    rw [runProgram] at h
    split at h
    · exact absurd h (by simp)
    · exact runLoop_finished_not_lt fuel gsx p gsx2 h
  · exact exit_run_from_reset

/-- Counterexample to claim C2 as stated: the one-byte program push t
is accepted and terminates naturally, but run returns with PC = 1, not
2 ^ 32 - 1. -/
theorem run_returns_pc_past_program_counterexample :
    ∃ g, runProgram 2 initGsx [10] = .finished g ∧
      g.registers.programCounter = .fin 1 ∧
      JsNum.fin 1 ≠ .fin ((UINT32_MAX : ℕ) : ℚ) := by
  obtain ⟨g, h1, h2⟩ := push_run_from_reset
  refine ⟨g, h1, h2, ?_⟩
  simp only [ne_eq, JsNum.fin.injEq]
  norm_num [UINT32_MAX]

/-- Witness for C2: the guard lemma applied to the concrete exit run. -/
theorem run_returns_pc_past_program_witness :
    ∃ g, runProgram 2 initGsx [6] = .finished g ∧
      jsLt g.registers.programCounter (.fin (([6] : List ℕ).length : ℚ)) = false := by
  obtain ⟨g, h1, -⟩ := run_returns_pc_past_program.2
  exact ⟨g, h1, run_returns_pc_past_program.1 2 initGsx [6] g h1⟩

theorem regGet_congr (rs1 rs2 : Registers) (reg : Reg) (ht : rs1.t = rs2.t)
    (hr : rs1.r = rs2.r) (hy : rs1.y = rs2.y) : rs1.get reg = rs2.get reg := by
  cases reg <;> simp only [Registers.get, ht, hr, hy]

theorem typedArraySetU32_natCast (arr : ℕ → ℕ) (n : ℕ) (v : JsNum) (hn : n < 256) :
    typedArraySetU32 arr (.fin (n : ℚ)) v = updFn arr n (toUint32Wrap v) := by
  simp only [typedArraySetU32]
  rw [if_pos ⟨by simp, by simp, by simp; exact_mod_cast hn⟩, natCast_num_toNat]

theorem runExec_spec (gsx : Gsx) (reg : Reg) (a j : ℕ) (p : List ℕ)
    (hpc : gsx.registers.programCounter = .fin ((a + 1 : ℕ) : ℚ))
    (hj : gsx.registers.jumpStackPointer = .fin (j : ℚ)) (hjlt : j < 256)
    (ha : a + 2 < 2 ^ 32) :
    ∃ gsx2, execInstr (.runReg reg) gsx p = some gsx2 ∧
      gsx2.jumpStack = updFn gsx.jumpStack j (a + 2) ∧
      gsx2.registers.jumpStackPointer = .fin ((min (j + 1) 255 : ℕ) : ℚ) ∧
      gsx2.registers.programCounter = toUint32 (gsx.registers.get reg) ∧
      gsx2.argumentStack = gsx.argumentStack ∧ gsx2.ram = gsx.ram := by
  have hadd : jsAdd (.fin 1) (.fin ((a + 1 : ℕ) : ℚ)) = .fin ((a + 2 : ℕ) : ℚ) := by
    have h := jsAdd_natCast 1 (a + 1) (by omega)
    rw [show 1 + (a + 1) = a + 2 by omega] at h
    simpa using h
  have hwrap : toUint32Wrap (.fin ((a + 2 : ℕ) : ℚ)) = a + 2 := by
    rw [toUint32Wrap_natCast]
    omega
  have hja : jsAdd (.fin (j : ℚ)) (.fin 1) = .fin ((j + 1 : ℕ) : ℚ) := by
    simpa using jsAdd_natCast j 1 (by omega)
  refine ⟨_, rfl, ?_, ?_, ?_, rfl, rfl⟩ <;>
    simp only [execInstr, setJumpStackPointer, setProgramCounter, hpc, hj, hadd,
      typedArraySetU32_natCast _ _ _ hjlt, hwrap, hja, toUint8_natCast]
  exact congrArg toUint32 (regGet_congr _ _ reg rfl rfl rfl)

/-- Claim C4: the claim (and the handler's own comment, which says the
call should return to the instruction after the call) expects the saved
return address to be one past the call opcode byte, a + 1.  The handler
runs after the interpreter has already advanced PC past the opcode byte
at address a (so PC = a + 1 on entry) and stores 1 + PC = a + 2 — two
past the call opcode byte — into jumpStack[JS]; it then increments JS
through the 8-bit saturation and sets PC to the called register's
toUint32-coerced value.  This theorem records that actual behavior. -/
theorem run_call_return_address (gsx : Gsx) (reg : Reg) (a j : ℕ) (p : List ℕ)
    (hpc : gsx.registers.programCounter = .fin ((a + 1 : ℕ) : ℚ))
    (hj : gsx.registers.jumpStackPointer = .fin (j : ℚ)) (hjlt : j < 256)
    (ha : a + 2 < 2 ^ 32) :
    ∃ gsx2, execInstr (.runReg reg) gsx p = some gsx2 ∧
      gsx2.jumpStack = updFn gsx.jumpStack j (a + 2) ∧
      gsx2.registers.jumpStackPointer = .fin ((min (j + 1) 255 : ℕ) : ℚ) ∧
      gsx2.registers.programCounter = toUint32 (gsx.registers.get reg) := by
  obtain ⟨gsx2, h1, h2, h3, h4, -, -⟩ := runExec_spec gsx reg a j p hpc hj hjlt ha
  exact ⟨gsx2, h1, h2, h3, h4⟩

/-- Evaluation of the run t handler at the failing input: with the run
opcode at address 0, the handler receives PC = 1 and stores 2 into
jumpStack[0]; the claim predicts the one-past-the-opcode address
0 + 1 = 1. -/
theorem run_call_return_address_counterexample :
    ∃ gsx2, execInstr (.runReg .t)
      { initGsx with registers :=
        { initGsx.registers with programCounter := .fin 1 } } [7] = some gsx2 ∧
      gsx2.jumpStack 0 = 2 ∧ (2 : ℕ) ≠ 0 + 1 := by
  obtain ⟨gsx2, h1, h2, -, -, -, -⟩ := runExec_spec
    { initGsx with registers :=
      { initGsx.registers with programCounter := .fin 1 } }
    .t 0 0 [7] (by norm_num) (by norm_num [initGsx]) (by norm_num) (by norm_num)
  refine ⟨gsx2, h1, ?_, by norm_num⟩
  rw [h2]
  simp [updFn]

/-- Witness for C4 at a concrete machine state. -/
theorem run_call_return_address_witness :
    ∃ gsx2, execInstr (.runReg .t)
      { initGsx with registers :=
        { initGsx.registers with programCounter := .fin 1 } } [7] = some gsx2 ∧
      gsx2.registers.jumpStackPointer = .fin ((min 1 255 : ℕ) : ℚ) ∧
      gsx2.registers.programCounter = toUint32 (.fin 0) := by
  obtain ⟨gsx2, h1, -, h3, h4⟩ := run_call_return_address
    { initGsx with registers :=
      { initGsx.registers with programCounter := .fin 1 } }
    .t 0 0 [7] (by norm_num) (by norm_num [initGsx]) (by norm_num) (by norm_num)
  exact ⟨gsx2, h1, h3, h4⟩

/-- Claim C10: the integer saturation gates are not total into the
register range: toUint8 and toUint32 map NaN to NaN (both range
comparisons are false and truncation of NaN is NaN), so a
width-enforcing setter stores NaN; in particular executing run t with
T = NaN leaves PC = NaN. -/
theorem integer_saturation_nan_not_total :
    toUint8 .nan = .nan ∧ toUint32 .nan = .nan ∧
    (∀ (gsx : Gsx) (p : List ℕ), gsx.registers.t = .nan →
      ∃ gsx2, execInstr (.runReg .t) gsx p = some gsx2 ∧
        gsx2.registers.programCounter = .nan) := by
  refine ⟨rfl, rfl, ?_⟩
  intro gsx p ht
  refine ⟨_, rfl, ?_⟩
  have h1 : ∀ (g : Gsx) (v : JsNum),
      ((setJumpStackPointer g v).registers).get .t = g.registers.t := fun _ _ => rfl
  have h2 : ∀ (g : Gsx) (js : ℕ → ℕ),
      (({ g with jumpStack := js } : Gsx)).registers.t = g.registers.t := fun _ _ => rfl
  rw [h1, h2, ht]
  rfl

/-- Witness for C10: run t on a state whose T register is NaN. -/
theorem integer_saturation_nan_witness :
    toUint8 .nan = .nan ∧
    (∃ gsx2, execInstr (.runReg .t)
      { initGsx with registers := { initGsx.registers with t := .nan } } [] =
        some gsx2 ∧
      gsx2.registers.programCounter = .nan) := by
  exact ⟨integer_saturation_nan_not_total.1,
    integer_saturation_nan_not_total.2.2
      { initGsx with registers := { initGsx.registers with t := .nan } } [] rfl⟩

theorem runLoop_ne_tooLarge : ∀ (fuel : ℕ) (gsx : Gsx) (p : List ℕ) (s : Gsx),
    runLoop fuel gsx p ≠ .tooLarge s := by
  intro fuel
  induction fuel with
  | zero =>
    intro gsx p s h
    simp [runLoop] at h
  | succ n ih =>
    intro gsx p s h
    rw [runLoop] at h
    split at h
    · split at h
      · simp at h
      · dsimp only at h
        split at h
        · simp at h
        · split at h
          · simp at h
          · exact ih _ p s h
    · simp at h

/-- Claim C5: runProgram throws the program-too-large error exactly
when the bytecode is at least MAX_PROGRAM_SIZE bytes; the throw happens
before the loop, so the state passed in is returned untouched; a
program one byte below the limit passes the check and enters the
interpreter loop. -/
theorem program_too_large_boundary :
    (∀ (fuel : ℕ) (gsx : Gsx) (p : List ℕ),
      ((∃ s, runProgram fuel gsx p = .tooLarge s) ↔ MAX_PROGRAM_SIZE ≤ p.length)) ∧
    (∀ (fuel : ℕ) (gsx : Gsx) (p : List ℕ), MAX_PROGRAM_SIZE ≤ p.length →
      runProgram fuel gsx p = .tooLarge gsx) ∧
    (∀ (fuel : ℕ) (gsx : Gsx) (p : List ℕ), p.length = MAX_PROGRAM_SIZE - 1 →
      runProgram fuel gsx p = runLoop fuel gsx p) := by
  refine ⟨?_, ?_, ?_⟩
  · intro fuel gsx p
    constructor
    · rintro ⟨s, hs⟩
      by_contra hlen
      rw [runProgram, if_neg hlen] at hs
      exact runLoop_ne_tooLarge fuel gsx p s hs
    · intro hlen
      exact ⟨gsx, by rw [runProgram, if_pos hlen]⟩
  · intro fuel gsx p hlen
    rw [runProgram, if_pos hlen]
  · intro fuel gsx p hlen
    rw [runProgram, if_neg]
    rw [hlen]
    norm_num [MAX_PROGRAM_SIZE, BYTES_PER_MB]

/-- Witness for C5 at the two boundary lengths. -/
theorem program_too_large_boundary_witness :
    runProgram 1 initGsx (List.replicate MAX_PROGRAM_SIZE 0) = .tooLarge initGsx ∧
    runProgram 1 initGsx (List.replicate (MAX_PROGRAM_SIZE - 1) 0) =
      runLoop 1 initGsx (List.replicate (MAX_PROGRAM_SIZE - 1) 0) :=
  ⟨program_too_large_boundary.2.1 1 initGsx _ (by simp),
   program_too_large_boundary.2.2 1 initGsx _ (by simp)⟩

theorem lineStep_fold_errors : ∀ (L : List (ℕ × String)) (acc : List JsNum × List String),
    (L.foldl lineStep acc).2 =
      acc.2 ++ L.filterMap (fun il =>
        if isUnknownLine il.2 then some (unknownInstructionMessage il.2 (il.1 + 1))
        else none) := by
  intro L
  induction L with
  | nil => intro acc; simp
  | cons il L ih =>
    intro acc
    rw [List.foldl_cons, List.filterMap_cons, ih]
    by_cases h1 : normalizeMnemonic il.2 = ""
    · simp [lineStep, isUnknownLine, h1]
    · rcases h2 : lookupMnemonic (normalizeMnemonic il.2) with - | bc
      · rcases h3 : tryToGetBytecodeForConstantAssignment (normalizeMnemonic il.2)
            with - | bs
        · simp [lineStep, isUnknownLine, h1, h2, h3]
        · simp [lineStep, isUnknownLine, h1, h2, h3]
      · by_cases h4 : acc.2 = [] <;> simp [lineStep, isUnknownLine, h1, h2, h4]

/-- Claim C6: translateToBytecode records exactly one error string, of
the form Unknown instruction (line) on line n., with n the 1-based,
digit-grouped line number, for every non-blank line that is neither a
keyable mnemonic nor a valid constant load; every such line is reported
because translation walks the whole program, and the returned byte
sequence is empty whenever at least one error was recorded. -/
theorem translate_reports_every_unknown_line (program : String) :
    (translateToBytecode program).2 =
      ((splitLines program).enum).filterMap (fun il =>
        if isUnknownLine il.2 then some (unknownInstructionMessage il.2 (il.1 + 1))
        else none) ∧
    ((translateToBytecode program).2 ≠ [] → (translateToBytecode program).1 = []) := by
  constructor
  · show (translateToBytecode program).2 = _
    simp only [translateToBytecode]
    rw [lineStep_fold_errors]
    simp
  · intro h
    simp only [translateToBytecode] at h ⊢
    rw [if_neg]
    · simp
    · intro habs
      exact h (by simpa [translateToBytecode] using habs)

set_option maxRecDepth 10000 in
/-- Witness for C6: a program with one unknown line yields exactly its
error message and an empty byte sequence. -/
theorem translate_reports_witness :
    (translateToBytecode "zzz").2 = ["Unknown instruction (zzz) on line 1."] ∧
    (translateToBytecode "zzz").1 = [] := by
  have h1 := (translate_reports_every_unknown_line "zzz").1
  refine ⟨?_, (translate_reports_every_unknown_line "zzz").2 ?_⟩
  · rw [h1]
    decide
  · rw [h1]
    decide

/-- Claim C3 (amended): for every normalized line matching the
constant-assignment pattern, the assembler emits the byte-constant
opcode followed by the raw constant exactly when the parsed value lies
in [-128, 127] and strictly equals the parseInt value of the same text
(that is, any fractional digits denote zero); the mere presence of a
dot does not force the float path, so new t = 127.0 takes the byte
path, while a genuinely fractional or out-of-range constant gets the
float-constant opcode followed by the four signed bytes of the
big-endian single-precision encoding. -/
theorem constant_assignment_byte_vs_float_path (m : String) (reg : Char) (cs : String)
    (hm : matchConstantPattern m = some (reg, cs)) :
    ((jsLe (.fin ((INT8_MIN : ℤ) : ℚ)) (jsParseFloat cs) &&
      jsLe (jsParseFloat cs) (.fin ((INT8_MAX : ℤ) : ℚ)) &&
      jsStrictEq (jsParseFloat cs) (jsParseInt cs)) = true →
      tryToGetBytecodeForConstantAssignment m =
        some [.fin (byteConstOpcode reg), jsParseFloat cs]) ∧
    ((jsLe (.fin ((INT8_MIN : ℤ) : ℚ)) (jsParseFloat cs) &&
      jsLe (jsParseFloat cs) (.fin ((INT8_MAX : ℤ) : ℚ)) &&
      jsStrictEq (jsParseFloat cs) (jsParseInt cs)) = false →
      tryToGetBytecodeForConstantAssignment m =
        some (.fin (floatConstOpcode reg) :: getFloatBytes (jsParseFloat cs))) := by
  constructor <;> intro hb <;>
    simp only [tryToGetBytecodeForConstantAssignment, hm, hb] <;>
    simp

set_option maxRecDepth 10000 in
/-- Counterexample to claim C3 as stated: the line new t = 127.0
contains a dot, yet the assembler emits the two-byte byte-constant form
[0, 127] rather than the five-byte float-constant form. -/
theorem constant_assignment_dot_counterexample :
    translateToBytecode "new t = 127.0" = ([0, 127], []) ∧
    (translateToBytecode "new t = 127.0").1.length ≠ 5 := by
  have h : translateToBytecode "new t = 127.0" = ([0, 127], []) := by
    with_unfolding_all decide
  exact ⟨h, by rw [h]; decide⟩

set_option maxRecDepth 10000 in
/-- Witness for C3 on a dotless in-range constant taking the byte path. -/
theorem constant_assignment_byte_vs_float_path_witness :
    tryToGetBytecodeForConstantAssignment "newt=5" =
      some [.fin (byteConstOpcode 't'), jsParseFloat "5"] :=
  (constant_assignment_byte_vs_float_path "newt=5" 't' "5" (by decide)).1
    (by with_unfolding_all decide)

theorem truncQ_intCast (z : ℤ) : truncQ ((z : ℚ)) = z := by
  unfold truncQ
  split
  · exact_mod_cast Int.floor_intCast z
  · exact_mod_cast Int.ceil_intCast z

theorem toUint8Wrap_int8 (b : ℕ) (hb : b < 256) :
    toUint8Wrap (.fin ((int8OfByte b : ℤ) : ℚ)) = b := by
  simp only [toUint8Wrap, int8OfByte, truncQ_intCast]
  split
  · omega
  · omega

/-- Claim C7: storing a value through setFloat32 at address a with
a + 4 within RAM and reading it back through getFloat32 yields the
single-precision rounding of the value (toFloat32, i.e. Math.fround);
the four RAM bytes at a .. a+3 hold the IEEE-754 binary32 encoding most
significant byte first; and the assembler's float-constant immediates
(getFloatBytes, after the Uint8Array conversion) are exactly the same
four bytes. -/
theorem ram_float32_roundtrip (x : JsNum) (a : ℕ) (ram : ℕ → ℕ)
    (ha : a + 4 ≤ MAX_PROGRAM_SIZE) :
    ∃ ram2, ramSetFloat32 ram (.fin (a : ℚ)) x = some ram2 ∧
      ramGetFloat32 ram2 (.fin (a : ℚ)) = some (toFloat32 x) ∧
      (ram2 a = encRoundF32 x / 2 ^ 24 % 256 ∧
       ram2 (a + 1) = encRoundF32 x / 2 ^ 16 % 256 ∧
       ram2 (a + 2) = encRoundF32 x / 2 ^ 8 % 256 ∧
       ram2 (a + 3) = encRoundF32 x % 256) ∧
      (getFloatBytes x).map toUint8Wrap = bytesOfBits32 (encRoundF32 x) := by
  have hidx : dataViewIndex (.fin (a : ℚ)) = some ((a : ℕ) : ℤ) := by
    simp [dataViewIndex, truncQ_natCast]
  have hg : (0 : ℤ) ≤ ((a : ℕ) : ℤ) ∧ ((a : ℕ) : ℤ) + 4 ≤ (MAX_PROGRAM_SIZE : ℤ) := by
    constructor
    · positivity
    · exact_mod_cast ha
  set ram2 : ℕ → ℕ := updFn (updFn (updFn (updFn ram
      a (encRoundF32 x / 2 ^ 24 % 256))
      (a + 1) (encRoundF32 x / 2 ^ 16 % 256))
      (a + 2) (encRoundF32 x / 2 ^ 8 % 256))
      (a + 3) (encRoundF32 x % 256) with hram2
  have hset : ramSetFloat32 ram (.fin (a : ℚ)) x = some ram2 := by
    simp only [ramSetFloat32, hidx]
    rw [if_pos hg]
    rw [hram2]
    simp
  have hr0 : ram2 a = encRoundF32 x / 2 ^ 24 % 256 := by
    rw [hram2]
    simp only [updFn]
    rw [if_neg (by omega : ¬ a = a + 3), if_neg (by omega : ¬ a = a + 2),
      if_neg (by omega : ¬ a = a + 1)]
    simp
  have hr1 : ram2 (a + 1) = encRoundF32 x / 2 ^ 16 % 256 := by
    rw [hram2]
    simp only [updFn]
    rw [if_neg (by omega : ¬ a + 1 = a + 3), if_neg (by omega : ¬ a + 1 = a + 2)]
    simp
  have hr2 : ram2 (a + 2) = encRoundF32 x / 2 ^ 8 % 256 := by
    rw [hram2]
    simp only [updFn]
    rw [if_neg (by omega : ¬ a + 2 = a + 3)]
    simp
  have hr3 : ram2 (a + 3) = encRoundF32 x % 256 := by
    rw [hram2]
    simp [updFn]
  refine ⟨ram2, hset, ?_, ⟨hr0, hr1, hr2, hr3⟩, ?_⟩
  · simp only [ramGetFloat32, hidx]
    rw [if_pos hg]
    simp only [Int.toNat_natCast, hr0, hr1, hr2, hr3]
    have hjoin : bitsOfBytes32 (encRoundF32 x / 2 ^ 24 % 256)
        (encRoundF32 x / 2 ^ 16 % 256) (encRoundF32 x / 2 ^ 8 % 256)
        (encRoundF32 x % 256) = encRoundF32 x % 2 ^ 32 := by
      unfold bitsOfBytes32
      omega
    rw [hjoin]
    have hdec : decodeF32 (encRoundF32 x % 2 ^ 32) = decodeF32 (encRoundF32 x) := by
      unfold decodeF32
      have hmm : encRoundF32 x % 2 ^ 32 % 2 ^ 32 = encRoundF32 x % 2 ^ 32 := by omega
      rw [hmm]
    rw [hdec]
    rfl
  · simp only [getFloatBytes, bytesOfBits32, List.map_cons, List.map_nil]
    rw [toUint8Wrap_int8 _ (by omega), toUint8Wrap_int8 _ (by omega),
      toUint8Wrap_int8 _ (by omega), toUint8Wrap_int8 _ (by omega)]

/-- Witness for C7 at a concrete value and address. -/
theorem ram_float32_roundtrip_witness :
    ∃ ram2, ramSetFloat32 (fun _ => 0) (.fin ((0 : ℕ) : ℚ)) (.fin (3 / 2)) =
        some ram2 ∧
      ramGetFloat32 ram2 (.fin ((0 : ℕ) : ℚ)) = some (toFloat32 (.fin (3 / 2))) := by
  obtain ⟨ram2, h1, h2, -, -⟩ := ram_float32_roundtrip (.fin (3 / 2)) 0 (fun _ => 0)
    (by norm_num [MAX_PROGRAM_SIZE, BYTES_PER_MB])
  exact ⟨ram2, h1, h2⟩

/-- Witness for C8 on a concrete machine, sampling one RAM byte. -/
theorem reset_zeroes_registers_and_ram_witness :
    (initGsx.reset).registers.t = .fin 0 ∧ (initGsx.reset).ram 7 = 0 :=
  ⟨(reset_zeroes_registers_and_ram initGsx).2.2.2.1,
   (reset_zeroes_registers_and_ram initGsx).2.2.2.2.2.2.1 7
     (by norm_num [MAX_PROGRAM_SIZE, BYTES_PER_MB])⟩
